import Mathlib

/-!
# Verification of the phrase segmentation engine (`src/recognisers.py`)

This file is a shallow embedding of the core of `recognisers.py`:
`Recognizer.record`, `Recognizer.adjust_for_ambient_noise` and
`Recognizer.listen`, together with theorems settling the specification
claims about them.

Modelling conventions:
* Python floats are modelled as exact rationals (`ℚ`); Python ints as `ℤ`
  where the source value can be negative (buffer counts obtained from
  `int(math.ceil(...))`) and as `ℕ` for genuinely non-negative data.
* An audio buffer is its list of decoded signed samples (`List ℤ`); the
  end-of-stream sentinel `b""` is the empty list.  A source's stream is a
  finite list of buffers; reading past its end yields the empty buffer,
  exactly like an exhausted stream whose `read` keeps returning `b""`.
* `audioop.rms` is integer `sqrt(sum(s^2) / n)` over the samples.
* The per-buffer damping factor `dynamic_energy_adjustment_damping **
  seconds_per_buffer` is an irrational real in general, so the model takes
  the evaluated per-buffer `damping` as an explicit parameter; theorems
  about the EWMA quantify over it.
* `listen`'s only possibly-divergent control structure is its outer retry
  loop, so that loop takes a fuel parameter (`none` = fuel exhausted,
  i.e. the call has not returned within `fuel` retries);
  both inner loops consume one stream element per iteration and are
  structural.  `adjust_for_ambient_noise`'s loop keeps running past EOF
  (it has no EOF test), so it is fuel-based as well.
-/

/-- A buffer of decoded signed PCM samples.  `[]` is the EOF sentinel
(`len(buffer) == 0` in the source). -/
abbrev Buffer := List ℤ

/-- `audioop.rms(buffer, width)`: integer square root of the mean of the
squared samples; `0` on an empty fragment. -/
def rms (b : Buffer) : ℕ :=
  Nat.sqrt ((b.foldl (fun a s => a + (s * s).toNat) 0) / b.length)

/-- An `AudioSource` as consumed by the segmenter: `CHUNK` samples per
read at `SAMPLE_RATE` Hz, `SAMPLE_WIDTH` bytes per sample, and the finite
stream of buffers its `stream.read` will yield (reads past the end return
the empty buffer). -/
structure Source where
  CHUNK : ℕ
  SAMPLE_RATE : ℕ
  SAMPLE_WIDTH : ℕ
  stream : List Buffer
deriving DecidableEq

/-- `seconds_per_buffer = (source.CHUNK + 0.0) / source.SAMPLE_RATE`. -/
def secondsPerBuffer (src : Source) : ℚ :=
  (src.CHUNK : ℚ) / (src.SAMPLE_RATE : ℚ)

/-- The `AudioData` value: raw frame data plus format metadata. -/
structure AudioData where
  frame_data : List ℤ
  sample_rate : ℕ
  sample_width : ℕ
deriving DecidableEq

/-- The configuration held by a `Recognizer` instance (`__init__`). -/
structure Recognizer where
  energy_threshold : ℚ
  dynamic_energy_threshold : Bool
  dynamic_energy_adjustment_damping : ℚ
  dynamic_energy_ratio : ℚ
  pause_threshold : ℚ
  phrase_threshold : ℚ
  non_speaking_duration : ℚ
deriving DecidableEq

/-- The defaults set in `Recognizer.__init__`. -/
def defaultRecognizer : Recognizer where
  energy_threshold := 600
  dynamic_energy_threshold := false
  dynamic_energy_adjustment_damping := 3 / 20
  dynamic_energy_ratio := 2
  pause_threshold := 1 / 2
  phrase_threshold := 1 / 2
  non_speaking_duration := 1 / 5

/-- Python truthiness of an optional numeric parameter: `None` and `0`
are falsy (`if timeout`, `if duration`, `if offset`). -/
def pyTruthy : Option ℚ → Bool
  | none => false
  | some v => v != 0

/-- `if timeout and elapsed_time > timeout` (listen, line 192). -/
def timeoutHit (timeout : Option ℚ) (elapsed : ℚ) : Bool :=
  match timeout with
  | none => false
  | some t => (t != 0) && decide (t < elapsed)

/-- `pause_buffer_count = int(math.ceil(pause_threshold / seconds_per_buffer))`. -/
def pauseBufferCount (r : Recognizer) (src : Source) : ℤ :=
  ⌈r.pause_threshold / secondsPerBuffer src⌉

/-- `phrase_buffer_count = int(math.ceil(phrase_threshold / seconds_per_buffer))`. -/
def phraseBufferCount (r : Recognizer) (src : Source) : ℤ :=
  ⌈r.phrase_threshold / secondsPerBuffer src⌉

/-- `non_speaking_buffer_count = int(math.ceil(non_speaking_duration / seconds_per_buffer))`. -/
def nonSpeakingBufferCount (r : Recognizer) (src : Source) : ℤ :=
  ⌈r.non_speaking_duration / secondsPerBuffer src⌉

/-- The config invariant asserted at entry of `listen` and
`adjust_for_ambient_noise`:
`assert self.pause_threshold >= self.non_speaking_duration >= 0`. -/
def entryAssert (r : Recognizer) : Prop :=
  r.pause_threshold ≥ r.non_speaking_duration ∧ r.non_speaking_duration ≥ 0

instance (r : Recognizer) : Decidable (entryAssert r) := by
  unfold entryAssert; infer_instance

/-- One EWMA update of the energy threshold (lines 164-166 / 207-209):
`energy_threshold * damping + (energy * dynamic_energy_ratio) * (1 - damping)`. -/
def ewma (damping ratio : ℚ) (energy : ℕ) (thr : ℚ) : ℚ :=
  thr * damping + ((energy : ℚ) * ratio) * (1 - damping)

/-! ## `Recognizer.record` (lines 110-140) -/

/-- The `while True` loop of `record`.  Each iteration does the offset
bookkeeping, reads a buffer (EOF breaks), and if past the offset either
breaks when `duration` is exceeded or appends the buffer.  The loop
consumes one stream element per iteration, so it is structural on the
stream. -/
def recordLoop (spb : ℚ) (duration offset : Option ℚ) :
    List Buffer → ℚ → ℚ → Bool → List Buffer → List Buffer
  | [], _, _, _, frames => frames
  | b :: rest, elapsed, offsetTime, offsetReached, frames =>
    -- `if offset and not offset_reached:` bookkeeping precedes the read
    let stepOffset := pyTruthy offset && !offsetReached
    let offsetTime' := if stepOffset then offsetTime + spb else offsetTime
    let offsetReached' :=
      offsetReached || (stepOffset && decide (offset.getD 0 < offsetTime'))
    if b.isEmpty then frames   -- `if len(buffer) == 0: break`
    else if offsetReached' || !pyTruthy offset then
      let elapsed' := elapsed + spb
      if pyTruthy duration && decide (duration.getD 0 < elapsed') then frames
      else recordLoop spb duration offset rest elapsed' offsetTime' offsetReached'
        (frames ++ [b])
    else recordLoop spb duration offset rest elapsed offsetTime' offsetReached' frames

/-- `Recognizer.record(source, duration, offset)`. -/
def record (src : Source) (duration offset : Option ℚ) : AudioData :=
  let frames := recordLoop (secondsPerBuffer src) duration offset src.stream 0 0 false []
  ⟨frames.flatten, src.SAMPLE_RATE, src.SAMPLE_WIDTH⟩

/-! ## `Recognizer.adjust_for_ambient_noise` (lines 142-166) -/

/-- Result of `adjust_for_ambient_noise`: either the entry assertion
failed, or the call returned leaving the given `energy_threshold`. -/
inductive AdjustResult where
  | assertError : AdjustResult
  | ok (thr : ℚ) : AdjustResult
deriving DecidableEq

/-- The calibration loop of `adjust_for_ambient_noise`: add
`seconds_per_buffer` to the clock, stop once it exceeds `duration`,
otherwise read a buffer (EOF is *not* tested: an exhausted stream keeps
yielding `b""`, whose rms is 0) and apply the EWMA update
unconditionally.  Fuel-based because the loop runs past EOF; `none`
means the fuel ran out before `elapsed` passed `duration`. -/
def adjustLoop (damping ratio spb duration : ℚ) :
    ℕ → List Buffer → ℚ → ℚ → Option ℚ
  | 0, _, _, _ => none
  | fuel + 1, stream, elapsed, thr =>
    let elapsed' := elapsed + spb
    if duration < elapsed' then some thr
    else
      match stream with
      | [] => adjustLoop damping ratio spb duration fuel [] elapsed'
          (ewma damping ratio (rms []) thr)
      | b :: rest => adjustLoop damping ratio spb duration fuel rest elapsed'
          (ewma damping ratio (rms b) thr)

/-- `Recognizer.adjust_for_ambient_noise(source, duration)`.  `damping`
is the evaluated per-buffer factor
`dynamic_energy_adjustment_damping ** seconds_per_buffer`. -/
def adjust_for_ambient_noise (r : Recognizer) (src : Source)
    (duration damping : ℚ) (fuel : ℕ) : Option AdjustResult :=
  if entryAssert r then
    (adjustLoop damping r.dynamic_energy_ratio (secondsPerBuffer src) duration
      fuel src.stream 0 r.energy_threshold).map .ok
  else some .assertError

/-! ## `Recognizer.listen` (lines 168-238) -/

/-- Outcome of the Phase-A loop (store audio until the phrase starts,
lines 190-209): either the timeout guard raised `WaitTimeoutError`, or
the loop broke (EOF or energy trigger) with the ring contents, clock,
threshold, remaining stream, and whether the exit was the EOF break. -/
inductive PhaseAResult where
  | raised (elapsed thr : ℚ) : PhaseAResult
  | done (frames : List Buffer) (elapsed thr : ℚ) (rest : List Buffer)
      (eof : Bool) : PhaseAResult
deriving DecidableEq

/-- Phase A: per iteration, advance the clock, check the timeout guard
*before* the read, read a buffer (EOF breaks), append it to the ring and
evict the oldest entry when the ring exceeds `nsbc`, break when the
buffer's energy exceeds the threshold (the triggering buffer stays in
the ring), else optionally apply the dynamic EWMA update. -/
def phaseA (dyn : Bool) (damping ratio spb : ℚ) (timeout : Option ℚ) (nsbc : ℤ) :
    List Buffer → List Buffer → ℚ → ℚ → PhaseAResult
  | [], frames, elapsed, thr =>
    let elapsed' := elapsed + spb
    if timeoutHit timeout elapsed' then .raised elapsed' thr
    else .done frames elapsed' thr [] true
  | b :: rest, frames, elapsed, thr =>
    let elapsed' := elapsed + spb
    if timeoutHit timeout elapsed' then .raised elapsed' thr
    else if b.isEmpty then .done frames elapsed' thr rest true
    else
      let f1 := frames ++ [b]
      let frames' := if (f1.length : ℤ) > nsbc then f1.tail else f1
      let energy := rms b
      if (energy : ℚ) > thr then .done frames' elapsed' thr rest false
      else
        let thr' := if dyn then ewma damping ratio energy thr else thr
        phaseA dyn damping ratio spb timeout nsbc rest frames' elapsed' thr'

/-- Outcome of the Phase-B loop (read audio until the phrase ends,
lines 211-228): ring contents, `pause_count`, `phrase_count`, clock,
remaining stream, and whether the exit was the EOF break (`true`) or the
`pause_count > pause_buffer_count` break (`false`). -/
structure PhaseBOut where
  frames : List Buffer
  pause : ℤ
  phrase : ℤ
  elapsed : ℚ
  rest : List Buffer
  eof : Bool
deriving DecidableEq

/-- Phase B: per iteration, advance the clock, read a buffer (EOF
breaks), append it, bump `phrase_count`, reset `pause_count` on speech
or bump it on silence, and break once `pause_count > pause_bc`.  The
threshold is not modified here. -/
def phaseB (pause_bc : ℤ) (spb thr : ℚ) :
    List Buffer → List Buffer → ℤ → ℤ → ℚ → PhaseBOut
  | [], frames, pause, phrase, elapsed =>
    ⟨frames, pause, phrase, elapsed + spb, [], true⟩
  | b :: rest, frames, pause, phrase, elapsed =>
    let elapsed' := elapsed + spb
    if b.isEmpty then ⟨frames, pause, phrase, elapsed', rest, true⟩
    else
      let frames' := frames ++ [b]
      let phrase' := phrase + 1
      let pause' := if (rms b : ℚ) > thr then 0 else pause + 1
      if pause' > pause_bc then ⟨frames', pause', phrase', elapsed', rest, false⟩
      else phaseB pause_bc spb thr rest frames' pause' phrase' elapsed'

/-- The result of `listen`.  `assertError`: the entry assertion failed
(before any read).  `waitTimeout e t`: `WaitTimeoutError` raised with
clock `e` and final `energy_threshold` `t`.  `audio` records the
returned frame list (`frames`, whose concatenation is the AudioData
body), and, for specification purposes, the untrimmed ring (`ring`),
the final threshold, the final `pause_count` and `phrase_count` of the
emitting cycle (the values *before* line 231's `phrase_count -=
pause_count`), and whether Phase A / Phase B of that cycle exited via
the EOF break. -/
inductive ListenResult where
  | assertError : ListenResult
  | waitTimeout (elapsed thr : ℚ) : ListenResult
  | audio (frames ring : List Buffer) (thr : ℚ) (pause phrase : ℤ)
      (eofA eofB : Bool) : ListenResult
deriving DecidableEq

/-- Line 235: `for i in range(pause_count - non_speaking_buffer_count):
frames.pop()` — drop the last `pause_count - non_speaking_buffer_count`
buffers; `range` of a non-positive count is empty, and the pop count
never exceeds the ring size because Phase B appended at least
`pause_count` buffers. -/
def trimFrames (nsbc : ℤ) (frames : List Buffer) (pause : ℤ) : List Buffer :=
  frames.take (frames.length - (pause - nsbc).toNat)

/-- The outer retry loop of `listen` (lines 186-232) plus the trimming
and return (lines 234-238).  Each cycle starts a fresh empty ring, runs
Phase A then Phase B (note that an EOF break out of Phase A still falls
through to Phase B), applies the emission test
`phrase_count - pause_count >= phrase_buffer_count`, and either emits
the trimmed ring or retries with the same clock and threshold. -/
def listenLoop (dyn : Bool) (damping ratio spb : ℚ) (timeout : Option ℚ)
    (nsbc pause_bc phrase_bc : ℤ) :
    ℕ → List Buffer → ℚ → ℚ → Option ListenResult
  | 0, _, _, _ => none
  | fuel + 1, stream, elapsed, thr =>
    match phaseA dyn damping ratio spb timeout nsbc stream [] elapsed thr with
    | .raised e t => some (.waitTimeout e t)
    | .done framesA e t rest eofA =>
      let B := phaseB pause_bc spb t rest framesA 0 0 e
      if phrase_bc ≤ B.phrase - B.pause then
        some (.audio (trimFrames nsbc B.frames B.pause) B.frames t
          B.pause B.phrase eofA B.eof)
      else
        listenLoop dyn damping ratio spb timeout nsbc pause_bc phrase_bc
          fuel B.rest B.elapsed t

/-- `Recognizer.listen(source, timeout)`.  `damping` is the evaluated
per-buffer factor `dynamic_energy_adjustment_damping **
seconds_per_buffer` used by the optional Phase-A update; `fuel` bounds
the number of outer retry cycles (`none` = the call has not returned
within `fuel` cycles). -/
def Recognizer.listen (r : Recognizer) (src : Source) (timeout : Option ℚ)
    (damping : ℚ) (fuel : ℕ) : Option ListenResult :=
  if entryAssert r then
    listenLoop r.dynamic_energy_threshold damping r.dynamic_energy_ratio
      (secondsPerBuffer src) timeout
      (nonSpeakingBufferCount r src) (pauseBufferCount r src)
      (phraseBufferCount r src)
      fuel src.stream 0 r.energy_threshold
  else some .assertError

/-! ## Basic lemmas about the timeout guard -/

lemma timeoutHit_none (e : ℚ) : timeoutHit none e = false := rfl

lemma timeoutHit_zero (e : ℚ) : timeoutHit (some 0) e = false := by
  simp [timeoutHit]

lemma timeoutHit_some_true {tm e : ℚ} (h : timeoutHit (some tm) e = true) :
    tm ≠ 0 ∧ tm < e := by
  simpa [timeoutHit] using h

/-! ## Phase A lemmas -/

lemma phaseA_no_raise (dyn : Bool) (damping ratio spb : ℚ) (tmo : Option ℚ)
    (nsbc : ℤ) (h : ∀ e, timeoutHit tmo e = false) (stream : List Buffer) :
    ∀ frames elapsed thr e' t',
      phaseA dyn damping ratio spb tmo nsbc stream frames elapsed thr ≠
        .raised e' t' := by
  induction stream with
  | nil => intro frames elapsed thr e' t'; simp [phaseA, h]
  | cons b rest ih =>
    intro frames elapsed thr e' t'
    simp only [phaseA, h, Bool.false_eq_true, if_false]
    split
    · simp
    · split
      · simp
      · exact ih _ _ _ _ _

lemma phaseA_raised_hit (dyn : Bool) (damping ratio spb : ℚ) (tmo : Option ℚ)
    (nsbc : ℤ) (stream : List Buffer) :
    ∀ frames elapsed thr e' t',
      phaseA dyn damping ratio spb tmo nsbc stream frames elapsed thr =
        .raised e' t' → timeoutHit tmo e' = true := by
  induction stream with
  | nil =>
    intro frames elapsed thr e' t' h
    by_cases hto : timeoutHit tmo (elapsed + spb) = true
    · simp only [phaseA, hto, if_true, PhaseAResult.raised.injEq] at h
      rw [← h.1]; exact hto
    · simp [phaseA, hto] at h
  | cons b rest ih =>
    intro frames elapsed thr e' t' h
    by_cases hto : timeoutHit tmo (elapsed + spb) = true
    · simp only [phaseA, hto, if_true, PhaseAResult.raised.injEq] at h
      rw [← h.1]; exact hto
    · simp only [phaseA, hto, Bool.false_eq_true, if_false] at h
      split at h
      · simp at h
      · split at h
        · simp at h
        · exact ih _ _ _ _ _ h

lemma phaseA_congr_timeout (dyn : Bool) (damping ratio spb : ℚ) (tmo tmo' : Option ℚ)
    (nsbc : ℤ) (h : ∀ e, timeoutHit tmo e = timeoutHit tmo' e) (stream : List Buffer) :
    ∀ frames elapsed thr,
      phaseA dyn damping ratio spb tmo nsbc stream frames elapsed thr =
      phaseA dyn damping ratio spb tmo' nsbc stream frames elapsed thr := by
  induction stream with
  | nil => intro frames elapsed thr; simp only [phaseA, h]
  | cons b rest ih =>
    intro frames elapsed thr
    simp only [phaseA, h]
    split
    · rfl
    · split
      · rfl
      · split
        · rfl
        · exact ih _ _ _

lemma phaseA_static (damping ratio spb : ℚ) (tmo : Option ℚ)
    (nsbc : ℤ) (stream : List Buffer) :
    ∀ frames elapsed thr,
      (∀ e' t', phaseA false damping ratio spb tmo nsbc stream frames elapsed thr =
        .raised e' t' → t' = thr)
      ∧ (∀ f e' t' rest eof,
          phaseA false damping ratio spb tmo nsbc stream frames elapsed thr =
            .done f e' t' rest eof → t' = thr) := by
  induction stream with
  | nil =>
    intro frames elapsed thr
    constructor
    · intro e' t' h
      simp only [phaseA] at h
      split at h
      · simp only [PhaseAResult.raised.injEq] at h
        exact h.2.symm
      · simp at h
    · intro f e' t' rest eof h
      simp only [phaseA] at h
      split at h
      · simp at h
      · simp only [PhaseAResult.done.injEq] at h
        exact h.2.2.1.symm
  | cons b rest ih =>
    intro frames elapsed thr
    constructor
    · intro e' t' h
      simp only [phaseA] at h
      split at h
      · simp only [PhaseAResult.raised.injEq] at h
        exact h.2.symm
      · split at h
        · simp at h
        · split at h
          · simp at h
          · simp only [Bool.false_eq_true, if_false] at h
            exact (ih _ _ _).1 _ _ h
    · intro f e' t' rest' eof h
      simp only [phaseA] at h
      split at h
      · simp at h
      · split at h
        · simp only [PhaseAResult.done.injEq] at h
          exact h.2.2.1.symm
        · split at h
          · simp only [PhaseAResult.done.injEq] at h
            exact h.2.2.1.symm
          · simp only [Bool.false_eq_true, if_false] at h
            exact (ih _ _ _).2 _ _ _ _ _ h

lemma phaseA_ring_le (dyn : Bool) (damping ratio spb : ℚ) (tmo : Option ℚ)
    (nsbc : ℤ) (stream : List Buffer) :
    ∀ frames elapsed thr f e' t' rest eof,
      (frames.length : ℤ) ≤ nsbc →
      phaseA dyn damping ratio spb tmo nsbc stream frames elapsed thr =
        .done f e' t' rest eof → (f.length : ℤ) ≤ nsbc := by
  induction stream with
  | nil =>
    intro frames elapsed thr f e' t' rest eof hlen h
    simp only [phaseA] at h
    split at h
    · simp at h
    · simp only [PhaseAResult.done.injEq] at h
      exact h.1 ▸ hlen
  | cons b rest0 ih =>
    intro frames elapsed thr f e' t' rest eof hlen h
    simp only [phaseA] at h
    split at h
    · simp at h
    · split at h
      · simp only [PhaseAResult.done.injEq] at h
        exact h.1 ▸ hlen
      · have hstep : (((if ((frames ++ [b]).length : ℤ) > nsbc
            then (frames ++ [b]).tail else frames ++ [b]).length : ℤ)) ≤ nsbc := by
          split
          · rename_i hgt
            simp only [List.length_tail, List.length_append, List.length_singleton]
            push_cast
            omega
          · rename_i hle
            omega
        split at h
        · simp only [PhaseAResult.done.injEq] at h
          exact h.1 ▸ hstep
        · exact ih _ _ _ _ _ _ _ _ hstep h

lemma phaseB_inv (pause_bc : ℤ) (spb thr : ℚ) (hbc : 0 ≤ pause_bc)
    (stream : List Buffer) :
    ∀ frames pause phrase elapsed o,
      phaseB pause_bc spb thr stream frames pause phrase elapsed = o →
      0 ≤ pause → pause ≤ phrase → pause ≤ pause_bc →
      ((o.frames.length : ℤ) - o.phrase = (frames.length : ℤ) - phrase
        ∧ 0 ≤ o.pause ∧ o.pause ≤ o.phrase ∧ phrase ≤ o.phrase
        ∧ (o.eof = false → o.pause = pause_bc + 1)) := by
  induction stream with
  | nil =>
    intro frames pause phrase elapsed o ho h0 hpp hbnd
    simp only [phaseB] at ho
    subst ho
    refine ⟨by ring, h0, hpp, le_refl _, ?_⟩
    intro h; simp at h
  | cons b rest ih =>
    intro frames pause phrase elapsed o ho h0 hpp hbnd
    simp only [phaseB] at ho
    split at ho
    · subst ho
      refine ⟨by ring, h0, hpp, le_refl _, ?_⟩
      intro h; simp at h
    · by_cases hrms : (rms b : ℚ) > thr
      · rw [if_pos hrms, if_neg (by omega : ¬ (0 : ℤ) > pause_bc)] at ho
        have h := ih _ _ _ _ _ ho (le_refl 0) (by omega) hbc
        have h4 := h.2.2.2.1
        refine ⟨?_, h.2.1, h.2.2.1, by omega, h.2.2.2.2⟩
        rw [h.1]
        simp only [List.length_append, List.length_singleton]
        push_cast
        ring
      · rw [if_neg hrms] at ho
        by_cases hexit : pause + 1 > pause_bc
        · rw [if_pos hexit] at ho
          subst ho
          refine ⟨?_, by dsimp only; omega, by dsimp only; omega,
            by dsimp only; omega, fun _ => by dsimp only; omega⟩
          dsimp only
          simp only [List.length_append, List.length_singleton]
          push_cast
          ring
        · rw [if_neg hexit] at ho
          have h := ih _ _ _ _ _ ho (by omega) (by omega) (by omega)
          have h4 := h.2.2.2.1
          refine ⟨?_, h.2.1, h.2.2.1, by omega, h.2.2.2.2⟩
          rw [h.1]
          simp only [List.length_append, List.length_singleton]
          push_cast
          ring

/-! ## Lemmas about the outer retry loop of `listen` -/

lemma listenLoop_nil_none (dyn : Bool) (damping ratio spb : ℚ) (tmo : Option ℚ)
    (nsbc pause_bc phrase_bc : ℤ) (h : ∀ e, timeoutHit tmo e = false)
    (hq : 0 < phrase_bc) :
    ∀ fuel : ℕ, ∀ elapsed thr : ℚ,
      listenLoop dyn damping ratio spb tmo nsbc pause_bc phrase_bc fuel [] elapsed thr
        = none := by
  intro fuel
  induction fuel with
  | zero => intro elapsed thr; rfl
  | succ n ih =>
    intro elapsed thr
    rw [listenLoop]
    simp only [phaseA, h, Bool.false_eq_true, if_false, phaseB]
    rw [if_neg (by omega)]
    exact ih _ _

lemma listenLoop_no_raise (dyn : Bool) (damping ratio spb : ℚ) (tmo : Option ℚ)
    (nsbc pause_bc phrase_bc : ℤ) (h : ∀ e, timeoutHit tmo e = false) :
    ∀ fuel : ℕ, ∀ stream elapsed thr e' t',
      listenLoop dyn damping ratio spb tmo nsbc pause_bc phrase_bc fuel stream elapsed thr
        ≠ some (.waitTimeout e' t') := by
  intro fuel
  induction fuel with
  | zero => intro stream elapsed thr e' t'; simp [listenLoop]
  | succ n ih =>
    intro stream elapsed thr e' t' hcon
    rw [listenLoop] at hcon
    cases hA : phaseA dyn damping ratio spb tmo nsbc stream [] elapsed thr with
    | raised e t => exact phaseA_no_raise _ _ _ _ _ _ h _ _ _ _ _ _ hA
    | done f e t rest eofA =>
      rw [hA] at hcon
      dsimp only at hcon
      split at hcon
      · simp at hcon
      · exact ih _ _ _ _ _ hcon

lemma listenLoop_raised_hit (dyn : Bool) (damping ratio spb : ℚ) (tmo : Option ℚ)
    (nsbc pause_bc phrase_bc : ℤ) :
    ∀ fuel : ℕ, ∀ stream elapsed thr e' t',
      listenLoop dyn damping ratio spb tmo nsbc pause_bc phrase_bc fuel stream elapsed thr
        = some (.waitTimeout e' t') → timeoutHit tmo e' = true := by
  intro fuel
  induction fuel with
  | zero => intro stream elapsed thr e' t' hcon; simp [listenLoop] at hcon
  | succ n ih =>
    intro stream elapsed thr e' t' hcon
    rw [listenLoop] at hcon
    cases hA : phaseA dyn damping ratio spb tmo nsbc stream [] elapsed thr with
    | raised e t =>
      rw [hA] at hcon
      simp only [Option.some.injEq, ListenResult.waitTimeout.injEq] at hcon
      exact hcon.1 ▸ phaseA_raised_hit _ _ _ _ _ _ _ _ _ _ _ _ hA
    | done f e t rest eofA =>
      rw [hA] at hcon
      dsimp only at hcon
      split at hcon
      · simp at hcon
      · exact ih _ _ _ _ _ hcon

lemma listenLoop_congr_timeout (dyn : Bool) (damping ratio spb : ℚ) (tmo tmo' : Option ℚ)
    (nsbc pause_bc phrase_bc : ℤ) (h : ∀ e, timeoutHit tmo e = timeoutHit tmo' e) :
    ∀ fuel : ℕ, ∀ stream elapsed thr,
      listenLoop dyn damping ratio spb tmo nsbc pause_bc phrase_bc fuel stream elapsed thr
        = listenLoop dyn damping ratio spb tmo' nsbc pause_bc phrase_bc fuel stream
            elapsed thr := by
  intro fuel
  induction fuel with
  | zero => intro stream elapsed thr; rfl
  | succ n ih =>
    intro stream elapsed thr
    rw [listenLoop, listenLoop,
      phaseA_congr_timeout dyn damping ratio spb tmo tmo' nsbc h stream]
    cases hA : phaseA dyn damping ratio spb tmo' nsbc stream [] elapsed thr with
    | raised e t => rfl
    | done f e t rest eofA =>
      dsimp only
      split
      · rfl
      · exact ih _ _ _

lemma listenLoop_static (damping ratio spb : ℚ) (tmo : Option ℚ)
    (nsbc pause_bc phrase_bc : ℤ) :
    ∀ fuel : ℕ, ∀ stream elapsed thr,
      (∀ e t, listenLoop false damping ratio spb tmo nsbc pause_bc phrase_bc fuel
          stream elapsed thr = some (.waitTimeout e t) → t = thr)
      ∧ (∀ fr ring t pa ph a b, listenLoop false damping ratio spb tmo nsbc pause_bc
          phrase_bc fuel stream elapsed thr = some (.audio fr ring t pa ph a b) →
          t = thr) := by
  intro fuel
  induction fuel with
  | zero =>
    intro stream elapsed thr
    constructor
    · intro e t hcon; simp [listenLoop] at hcon
    · intro fr ring t pa ph a b hcon; simp [listenLoop] at hcon
  | succ n ih =>
    intro stream elapsed thr
    constructor
    · intro e t hcon
      rw [listenLoop] at hcon
      cases hA : phaseA false damping ratio spb tmo nsbc stream [] elapsed thr with
      | raised e0 t0 =>
        have ht0 : t0 = thr := (phaseA_static damping ratio spb tmo nsbc stream [] elapsed thr).1 _ _ hA
        rw [hA] at hcon
        simp only [Option.some.injEq, ListenResult.waitTimeout.injEq] at hcon
        rw [← hcon.2, ht0]
      | done f e0 t0 rest eofA =>
        have ht0 : t0 = thr := (phaseA_static damping ratio spb tmo nsbc stream [] elapsed thr).2 _ _ _ _ _ hA
        rw [hA] at hcon
        dsimp only at hcon
        split at hcon
        · simp at hcon
        · have htt0 : t = t0 := (ih _ _ t0).1 _ _ hcon
          rw [htt0]
          exact ht0
    · intro fr ring t pa ph a b hcon
      rw [listenLoop] at hcon
      cases hA : phaseA false damping ratio spb tmo nsbc stream [] elapsed thr with
      | raised e0 t0 =>
        rw [hA] at hcon
        simp at hcon
      | done f e0 t0 rest eofA =>
        have ht0 : t0 = thr := (phaseA_static damping ratio spb tmo nsbc stream [] elapsed thr).2 _ _ _ _ _ hA
        rw [hA] at hcon
        dsimp only at hcon
        split at hcon
        · simp only [Option.some.injEq, ListenResult.audio.injEq] at hcon
          rw [← hcon.2.2.1]
          exact ht0
        · rw [← ht0]
          exact (ih _ _ t0).2 _ _ _ _ _ _ _ hcon

lemma listenLoop_emission_cond (dyn : Bool) (damping ratio spb : ℚ) (tmo : Option ℚ)
    (nsbc pause_bc phrase_bc : ℤ) :
    ∀ fuel : ℕ, ∀ stream elapsed thr fr ring t pa ph eA eB,
      listenLoop dyn damping ratio spb tmo nsbc pause_bc phrase_bc fuel stream elapsed thr
        = some (.audio fr ring t pa ph eA eB) → phrase_bc ≤ ph - pa := by
  intro fuel
  induction fuel with
  | zero => intro stream elapsed thr fr ring t pa ph eA eB hcon; simp [listenLoop] at hcon
  | succ n ih =>
    intro stream elapsed thr fr ring t pa ph eA eB hcon
    rw [listenLoop] at hcon
    cases hA : phaseA dyn damping ratio spb tmo nsbc stream [] elapsed thr with
    | raised e t0 => rw [hA] at hcon; simp at hcon
    | done f e t0 rest eofA =>
      rw [hA] at hcon
      dsimp only at hcon
      split at hcon
      · rename_i hcond
        simp only [Option.some.injEq, ListenResult.audio.injEq] at hcon
        rw [← hcon.2.2.2.1, ← hcon.2.2.2.2.1]
        exact hcond
      · exact ih _ _ _ _ _ _ _ _ _ _ hcon

lemma listenLoop_audio_spec (dyn : Bool) (damping ratio spb : ℚ) (tmo : Option ℚ)
    (nsbc pause_bc phrase_bc : ℤ) (hn : 0 ≤ nsbc) (hp : 0 ≤ pause_bc) :
    ∀ fuel : ℕ, ∀ stream elapsed thr fr ring t pa ph eA eB,
      listenLoop dyn damping ratio spb tmo nsbc pause_bc phrase_bc fuel stream elapsed thr
        = some (.audio fr ring t pa ph eA eB) →
      (fr = trimFrames nsbc ring pa ∧ 0 ≤ pa ∧ pa ≤ ph ∧ ph ≤ (ring.length : ℤ)
        ∧ (ring.length : ℤ) - ph ≤ nsbc
        ∧ (eB = false → pa = pause_bc + 1)
        ∧ phrase_bc ≤ ph - pa) := by
  intro fuel
  induction fuel with
  | zero => intro stream elapsed thr fr ring t pa ph eA eB hcon; simp [listenLoop] at hcon
  | succ n ih =>
    intro stream elapsed thr fr ring t pa ph eA eB hcon
    rw [listenLoop] at hcon
    cases hA : phaseA dyn damping ratio spb tmo nsbc stream [] elapsed thr with
    | raised e t0 => rw [hA] at hcon; simp at hcon
    | done f e t0 rest eofA =>
      have hring : (f.length : ℤ) ≤ nsbc :=
        phaseA_ring_le dyn damping ratio spb tmo nsbc stream [] elapsed thr f e t0
          rest eofA (by simpa using hn) hA
      have hB := phaseB_inv pause_bc spb t0 hp rest f 0 0 e
        (phaseB pause_bc spb t0 rest f 0 0 e) rfl (le_refl 0) (le_refl 0) hp
      rw [hA] at hcon
      dsimp only at hcon
      split at hcon
      · rename_i hcond
        simp only [Option.some.injEq, ListenResult.audio.injEq] at hcon
        obtain ⟨h1, h2, h3, h4, h5, h6, h7⟩ := hcon
        subst h1 h2 h3 h4 h5 h6 h7
        have e1 := hB.1
        have e2 := hB.2.1
        have e3 := hB.2.2.1
        have e5 := hB.2.2.2.2
        refine ⟨rfl, e2, e3, by omega, by omega, e5, hcond⟩
      · exact ih _ _ _ _ _ _ _ _ _ _ hcon

lemma listenLoop_empty_raises (dyn : Bool) (damping ratio spb : ℚ) (tm : ℚ)
    (nsbc pause_bc phrase_bc : ℤ) (htm : 0 < tm) (hq : 0 < phrase_bc) :
    ∀ n : ℕ, ∀ elapsed thr : ℚ, tm < elapsed + spb + n * (2 * spb) →
      ∃ e t, listenLoop dyn damping ratio spb (some tm) nsbc pause_bc phrase_bc
        (n + 1) [] elapsed thr = some (.waitTimeout e t) := by
  intro n
  induction n with
  | zero =>
    intro elapsed thr hlt
    refine ⟨elapsed + spb, thr, ?_⟩
    rw [listenLoop]
    have hhit : timeoutHit (some tm) (elapsed + spb) = true := by
      simp only [timeoutHit, Bool.and_eq_true, bne_iff_ne, ne_eq, decide_eq_true_eq]
      exact ⟨htm.ne', by simpa using hlt⟩
    simp [phaseA, hhit]
  | succ n ih =>
    intro elapsed thr hlt
    by_cases hnow : tm < elapsed + spb
    · refine ⟨elapsed + spb, thr, ?_⟩
      rw [listenLoop]
      have hhit : timeoutHit (some tm) (elapsed + spb) = true := by
        simp only [timeoutHit, Bool.and_eq_true, bne_iff_ne, ne_eq, decide_eq_true_eq]
        exact ⟨htm.ne', hnow⟩
      simp [phaseA, hhit]
    · have hhit : timeoutHit (some tm) (elapsed + spb) = false := by
        simp only [timeoutHit, Bool.and_eq_false_iff]
        right
        simpa using hnow
      have hstep := ih (elapsed + 2 * spb) thr (by push_cast at hlt; linarith)
      obtain ⟨e, t, hstep⟩ := hstep
      refine ⟨e, t, ?_⟩
      rw [listenLoop]
      simp only [phaseA, hhit, Bool.false_eq_true, if_false, phaseB]
      rw [if_neg (by omega)]
      have harith : elapsed + spb + spb = elapsed + 2 * spb := by ring
      rw [harith]
      exact hstep


/-! ## Evaluation helpers for concrete runs

The `Int.ceil` and `Rat` operations are not kernel-reducible, so
concrete buffer counts are computed through `Int.ceil_eq_iff` and
`norm_num`. -/

lemma ceilEval (r : ℚ) (z : ℤ) (h1 : (z : ℚ) - 1 < r) (h2 : r ≤ (z : ℚ)) :
    ⌈r⌉ = z :=
  Int.ceil_eq_iff.mpr ⟨by exact_mod_cast h1, by exact_mod_cast h2⟩

lemma srcE_spb : secondsPerBuffer ⟨1024, 16000, 2, []⟩ = 8 / 125 := by
  norm_num [secondsPerBuffer]

lemma default_phrase_bc :
    phraseBufferCount defaultRecognizer ⟨1024, 16000, 2, []⟩ = 8 := by
  rw [phraseBufferCount, srcE_spb]
  exact ceilEval _ _ (by norm_num [defaultRecognizer]) (by norm_num [defaultRecognizer])

lemma default_entry : entryAssert defaultRecognizer := by
  constructor <;> norm_num [defaultRecognizer]

lemma srcU_spb : secondsPerBuffer ⟨1, 1, 2, []⟩ = 1 := by
  norm_num [secondsPerBuffer]

lemma unit_pause_bc : pauseBufferCount defaultRecognizer ⟨1, 1, 2, []⟩ = 1 := by
  rw [pauseBufferCount, srcU_spb]
  exact ceilEval _ _ (by norm_num [defaultRecognizer]) (by norm_num [defaultRecognizer])

lemma unit_phrase_bc : phraseBufferCount defaultRecognizer ⟨1, 1, 2, []⟩ = 1 := by
  rw [phraseBufferCount, srcU_spb]
  exact ceilEval _ _ (by norm_num [defaultRecognizer]) (by norm_num [defaultRecognizer])

lemma unit_nsbc : nonSpeakingBufferCount defaultRecognizer ⟨1, 1, 2, []⟩ = 1 := by
  rw [nonSpeakingBufferCount, srcU_spb]
  exact ceilEval _ _ (by norm_num [defaultRecognizer]) (by norm_num [defaultRecognizer])

/-- A concrete raising run shared by several witnesses: with the default
configuration on a 1 Hz / 1-sample source whose stream has already
ended, `listen(source, timeout = 1)` raises at clock `3` (the guard is
checked at clocks 1 and 3; EOF retry cycles keep the clock growing). -/
lemma listen_default_unit_timeout :
    Recognizer.listen defaultRecognizer ⟨1, 1, 2, []⟩ (some 1) 0 2
      = some (.waitTimeout 3 600) := by
  rw [Recognizer.listen, if_pos default_entry, srcU_spb, unit_pause_bc, unit_phrase_bc,
    unit_nsbc]
  norm_num [listenLoop, phaseA, phaseB, timeoutHit, defaultRecognizer]

lemma rms_five : rms [5] = 5 := by
  rw [rms]
  simp
  rw [show (25 : ℕ) = 5 * 5 from rfl]
  exact Nat.sqrt_eq 5

lemma rms_zero : rms [0] = 0 := by simp [rms]

/-! ## Claim theorems: C1 and C4 -/

/-- Claim C1 (the code violates it).  The claim says that when the
source's stream ends, `listen` terminates and returns the frames
captured so far even when the captured phrase is shorter than
`phrase_buffer_count`.  In the code the EOF break in Phase A only
leaves the *inner* loop; Phase B then immediately hits EOF with
`phrase_count = 0`, the emission test `0 >= phrase_buffer_count` fails
(the default configuration has `phrase_buffer_count = 8`), and the
outer loop re-enters Phase A at EOF forever.  This theorem exhibits
the divergence: on an already-ended stream with no timeout and the
default configuration, `listen` does not return within any number
`fuel` of retry cycles. -/
theorem listen_empty_stream_never_returns (d : ℚ) (fuel : ℕ) :
    Recognizer.listen defaultRecognizer ⟨1024, 16000, 2, []⟩ none d fuel = none := by
  rw [Recognizer.listen, if_pos default_entry]
  refine listenLoop_nil_none _ _ _ _ _ _ _ _ timeoutHit_none ?_ fuel _ _
  rw [default_phrase_bc]
  norm_num

/-- Claim C4: `listen` raises `WaitTimeoutError` exactly when a truthy
`timeout` is exceeded by the cumulative clock at a Phase-A check (the
guard `if timeout and elapsed_time > timeout` runs once per Phase-A
iteration, before the read; "set" is Python-truthy, so `timeout = 0`
counts as unset — claim C10 records that case separately).
Part 1: with `timeout = None` no `WaitTimeoutError` is ever raised.
Part 2: if `WaitTimeoutError` is raised with `timeout = tm`, then `tm`
is truthy and the clock at the raise exceeds `tm`.  Part 3: the clock
is cumulative across Phase-A restarts within one invocation: on an
already-ended (hence speechless) stream, where each retry cycle adds
`2 * seconds_per_buffer` without ever starting a phrase, any positive
timeout is eventually exceeded and `listen` raises. -/
theorem listen_timeout_characterisation :
    (∀ r src d fuel e t,
        Recognizer.listen r src none d fuel ≠ some (.waitTimeout e t))
    ∧ (∀ r src tm d fuel e t,
        Recognizer.listen r src (some tm) d fuel = some (.waitTimeout e t) →
        tm ≠ 0 ∧ tm < e)
    ∧ (∀ tm d : ℚ, 0 < tm →
        ∃ fuel e t,
          Recognizer.listen defaultRecognizer ⟨1024, 16000, 2, []⟩ (some tm) d fuel
            = some (.waitTimeout e t)) := by
  refine ⟨?_, ?_, ?_⟩
  · intro r src d fuel e t hcon
    rw [Recognizer.listen] at hcon
    split at hcon
    · exact listenLoop_no_raise _ _ _ _ _ _ _ _ timeoutHit_none fuel _ _ _ _ _ hcon
    · simp at hcon
  · intro r src tm d fuel e t hcon
    rw [Recognizer.listen] at hcon
    split at hcon
    · exact timeoutHit_some_true
        (listenLoop_raised_hit _ _ _ _ _ _ _ _ fuel _ _ _ _ _ hcon)
    · simp at hcon
  · intro tm d htm
    set n : ℕ := (⌈tm * 125 / 16⌉).toNat with hn
    have hceil : (tm * 125 / 16 : ℚ) ≤ (n : ℚ) := by
      have h1 : (0 : ℤ) ≤ ⌈tm * 125 / 16⌉ := Int.ceil_nonneg (by positivity)
      calc (tm * 125 / 16 : ℚ) ≤ ((⌈tm * 125 / 16⌉ : ℤ) : ℚ) := Int.le_ceil _
        _ = (n : ℚ) := by rw [hn]; norm_cast; omega
    have hbig : tm < 0 + 8 / 125 + (n : ℚ) * (2 * (8 / 125)) := by
      have hs : tm ≤ (n : ℚ) * (16 / 125) := by
        have hm := mul_le_mul_of_nonneg_right hceil (by norm_num : (0 : ℚ) ≤ 16 / 125)
        calc tm = tm * 125 / 16 * (16 / 125) := by ring
          _ ≤ (n : ℚ) * (16 / 125) := hm
      linarith
    obtain ⟨e, t, hraise⟩ := listenLoop_empty_raises
      defaultRecognizer.dynamic_energy_threshold d
      defaultRecognizer.dynamic_energy_ratio (8 / 125) tm
      (nonSpeakingBufferCount defaultRecognizer ⟨1024, 16000, 2, []⟩)
      (pauseBufferCount defaultRecognizer ⟨1024, 16000, 2, []⟩)
      (phraseBufferCount defaultRecognizer ⟨1024, 16000, 2, []⟩)
      htm (by rw [default_phrase_bc]; norm_num) n 0 defaultRecognizer.energy_threshold hbig
    refine ⟨n + 1, e, t, ?_⟩
    rw [Recognizer.listen, if_pos default_entry, srcE_spb]
    exact hraise

/-- Witness for C4: parts 2 and 3 applied at `timeout = 1` — a concrete
raising run on an ended 1 Hz stream raises at clock `3 > 1`, and part 3
yields a raising fuel for the default source. -/
theorem listen_timeout_characterisation_witness :
    ((1 : ℚ) ≠ 0 ∧ (1 : ℚ) < 3)
    ∧ ∃ fuel e t,
        Recognizer.listen defaultRecognizer ⟨1024, 16000, 2, []⟩ (some 1) 0 fuel
          = some (.waitTimeout e t) :=
  ⟨listen_timeout_characterisation.2.1 defaultRecognizer ⟨1, 1, 2, []⟩ 1 0 2 3 600
      listen_default_unit_timeout,
    listen_timeout_characterisation.2.2 1 0 (by norm_num)⟩

/-! ## Claim theorem: C8 -/

/-- Claim C8: when `dynamic_energy_threshold` is false, `listen` never
modifies `energy_threshold` — the final threshold carried by either
outcome (return or `WaitTimeoutError`) equals the value at entry.  (The
only threshold write in `listen`, lines 206-209, is the Phase-A EWMA
guarded by the flag, which the model mirrors; with the flag false every
phase preserves the threaded threshold.) -/
theorem listen_threshold_static (r : Recognizer) (src : Source) (tmo : Option ℚ)
    (d : ℚ) (fuel : ℕ) (hdyn : r.dynamic_energy_threshold = false) :
    (∀ e t, Recognizer.listen r src tmo d fuel = some (.waitTimeout e t) →
      t = r.energy_threshold)
    ∧ (∀ fr ring t pa ph a b,
        Recognizer.listen r src tmo d fuel = some (.audio fr ring t pa ph a b) →
        t = r.energy_threshold) := by
  constructor
  · intro e t hcon
    rw [Recognizer.listen] at hcon
    split at hcon
    · rw [hdyn] at hcon
      exact (listenLoop_static _ _ _ _ _ _ _ fuel _ _ _).1 _ _ hcon
    · simp at hcon
  · intro fr ring t pa ph a b hcon
    rw [Recognizer.listen] at hcon
    split at hcon
    · rw [hdyn] at hcon
      exact (listenLoop_static _ _ _ _ _ _ _ fuel _ _ _).2 _ _ _ _ _ _ _ hcon
    · simp at hcon

/-- Witness for C8: the concrete raising run of
`listen_default_unit_timeout` leaves the threshold at its entry value
`600`. -/
theorem listen_threshold_static_witness :
    (600 : ℚ) = defaultRecognizer.energy_threshold :=
  (listen_threshold_static defaultRecognizer ⟨1, 1, 2, []⟩ (some 1) 0 2 rfl).1 3 600
    listen_default_unit_timeout

/-! ## Claim theorem: C10 -/

lemma recordLoop_duration_zero (spb : ℚ) (off : Option ℚ) (stream : List Buffer) :
    ∀ elapsed ot orch frames,
      recordLoop spb (some 0) off stream elapsed ot orch frames
        = recordLoop spb none off stream elapsed ot orch frames := by
  induction stream with
  | nil => intro elapsed ot orch frames; rfl
  | cons b rest ih =>
    intro elapsed ot orch frames
    rw [recordLoop, recordLoop]
    simp only [pyTruthy, bne_self_eq_false, Bool.false_and, Bool.and_false]
    repeat' first
      | rfl
      | (exact ih _ _ _ _)
      | split

lemma recordLoop_offset_zero (spb : ℚ) (dur : Option ℚ) (stream : List Buffer) :
    ∀ elapsed ot orch frames,
      recordLoop spb dur (some 0) stream elapsed ot orch frames
        = recordLoop spb dur none stream elapsed ot orch frames := by
  induction stream with
  | nil => intro elapsed ot orch frames; rfl
  | cons b rest ih =>
    intro elapsed ot orch frames
    rw [recordLoop, recordLoop]
    simp only [pyTruthy, bne_self_eq_false, Bool.false_and, Bool.and_false, Bool.or_false,
      Bool.not_false, Bool.or_true]
    repeat' first
      | rfl
      | (exact ih _ _ _ _)
      | split

/-- Claim C10: a caller-supplied `timeout = 0` is treated exactly as
`timeout = None` because the guard tests truthiness (`if timeout and
...`), so `listen(source, 0)` behaves identically to an untimed call
and never raises `WaitTimeoutError`; `record` treats `duration = 0`
and `offset = 0` the same way (`if duration and ...`,
`if offset and ...`). -/
theorem timeout_zero_treated_as_unset :
    (∀ r src d fuel,
        Recognizer.listen r src (some 0) d fuel = Recognizer.listen r src none d fuel)
    ∧ (∀ r src d fuel e t,
        Recognizer.listen r src (some 0) d fuel ≠ some (.waitTimeout e t))
    ∧ (∀ src off, record src (some 0) off = record src none off)
    ∧ (∀ src dur, record src dur (some 0) = record src dur none) := by
  refine ⟨?_, ?_, ?_, ?_⟩
  · intro r src d fuel
    rw [Recognizer.listen, Recognizer.listen]
    split
    · exact listenLoop_congr_timeout _ _ _ _ _ _ _ _ _
        (fun e => by rw [timeoutHit_zero, timeoutHit_none]) fuel _ _ _
    · rfl
  · intro r src d fuel e t hcon
    rw [Recognizer.listen] at hcon
    split at hcon
    · exact listenLoop_no_raise _ _ _ _ _ _ _ _ timeoutHit_zero fuel _ _ _ _ _ hcon
    · simp at hcon
  · intro src off
    rw [record, record]
    rw [recordLoop_duration_zero]
  · intro src dur
    rw [record, record]
    rw [recordLoop_offset_zero]

/-! ## Claim theorems: C9 -/

/-- Counterexample to claim C9 as stated.  The claim says every config
violating `phrase_threshold >= 0` is rejected by an assertion at entry,
but `listen` (line 177) and `adjust_for_ambient_noise` (line 151) only
assert `pause_threshold >= non_speaking_duration >= 0`.  With
`phrase_threshold = -1` (and valid pause/non-speaking values) the call
proceeds into capture: `phrase_buffer_count = -1`, so even the empty
EOF capture passes the emission test `0 >= -1` and `listen` returns an
(empty) AudioData instead of failing at entry. -/
theorem listen_accepts_negative_phrase_threshold :
    ((⟨600, false, 3/20, 2, 1, -1, 0⟩ : Recognizer).phrase_threshold < 0)
    ∧ Recognizer.listen ⟨600, false, 3/20, 2, 1, -1, 0⟩ ⟨1, 1, 2, []⟩ none 0 1
        = some (.audio [] [] 600 0 0 true true) := by
  constructor
  · norm_num
  · rw [Recognizer.listen, if_pos (by constructor <;> norm_num [entryAssert])]
    rw [show secondsPerBuffer ⟨1, 1, 2, []⟩ = 1 from by norm_num [secondsPerBuffer]]
    rw [show pauseBufferCount ⟨600, false, 3/20, 2, 1, -1, 0⟩ ⟨1, 1, 2, []⟩ = 1 from by
      rw [pauseBufferCount, show secondsPerBuffer ⟨1, 1, 2, []⟩ = 1 from by
        norm_num [secondsPerBuffer]]
      exact ceilEval _ _ (by norm_num) (by norm_num)]
    rw [show phraseBufferCount ⟨600, false, 3/20, 2, 1, -1, 0⟩ ⟨1, 1, 2, []⟩ = -1 from by
      rw [phraseBufferCount, show secondsPerBuffer ⟨1, 1, 2, []⟩ = 1 from by
        norm_num [secondsPerBuffer]]
      exact ceilEval _ _ (by norm_num) (by norm_num)]
    rw [show nonSpeakingBufferCount ⟨600, false, 3/20, 2, 1, -1, 0⟩ ⟨1, 1, 2, []⟩ = 0 from by
      rw [nonSpeakingBufferCount, show secondsPerBuffer ⟨1, 1, 2, []⟩ = 1 from by
        norm_num [secondsPerBuffer]]
      exact ceilEval _ _ (by norm_num) (by norm_num)]
    norm_num [listenLoop, phaseA, phaseB, timeoutHit, trimFrames]

/-- Claim C9, amended: `listen` and `adjust_for_ambient_noise` assert
`pause_threshold >= non_speaking_duration >= 0` at entry, before any
source read — a config violating *that* chain makes either call fail
with `AssertionError` for every source and stream; `phrase_threshold`
is not validated (a negative value is silently accepted into capture,
see the counterexample). -/
theorem entry_assert_rejects (r : Recognizer) (h : ¬ entryAssert r) :
    (∀ src tmo d fuel, Recognizer.listen r src tmo d fuel = some .assertError)
    ∧ (∀ src dur d fuel,
        adjust_for_ambient_noise r src dur d fuel = some .assertError) := by
  constructor
  · intro src tmo d fuel
    rw [Recognizer.listen, if_neg h]
  · intro src dur d fuel
    rw [adjust_for_ambient_noise, if_neg h]

/-- Witness for the amended C9: a config with
`non_speaking_duration = -1` is rejected at entry by both calls. -/
theorem entry_assert_rejects_witness :
    Recognizer.listen ⟨600, false, 3/20, 2, 1/2, 1/2, -1⟩ ⟨1, 1, 2, [[5]]⟩ none 0 3
        = some .assertError
    ∧ adjust_for_ambient_noise ⟨600, false, 3/20, 2, 1/2, 1/2, -1⟩ ⟨1, 1, 2, [[5]]⟩ 1 0 3
        = some .assertError :=
  ⟨(entry_assert_rejects _ (fun hc => absurd hc.2 (by norm_num))).1 _ none 0 3,
    (entry_assert_rejects _ (fun hc => absurd hc.2 (by norm_num))).2 _ 1 0 3⟩

/-! ## A concrete emitting run shared by several witnesses

Configuration: `energy_threshold = 4`, thresholds `pause = phrase =
non_speaking = 1 s`, on a 1 Hz / 1-sample source, so every buffer count
is 1.  The stream is one speech buffer (rms 5) that triggers Phase A,
then speech, silence, silence in Phase B (`pause_count` reaches 2 > 1),
leaving one unread buffer — no EOF is ever seen.  `phrase_count = 3`,
`pause_count = 2`, effective phrase `1 >= 1`, so the ring
`[[5],[5],[0],[0]]` is emitted with one trailing silent buffer
trimmed. -/

lemma cfgW_entry : entryAssert (⟨4, false, 3/20, 2, 1, 1, 1⟩ : Recognizer) := by
  constructor <;> norm_num

lemma srcW_spb : secondsPerBuffer ⟨1, 1, 2, [[5], [5], [0], [0], [0]]⟩ = 1 := by
  norm_num [secondsPerBuffer]

lemma srcW_pause_bc :
    pauseBufferCount ⟨4, false, 3/20, 2, 1, 1, 1⟩ ⟨1, 1, 2, [[5], [5], [0], [0], [0]]⟩
      = 1 := by
  rw [pauseBufferCount, srcW_spb]
  exact ceilEval _ _ (by norm_num) (by norm_num)

lemma srcW_phrase_bc :
    phraseBufferCount ⟨4, false, 3/20, 2, 1, 1, 1⟩ ⟨1, 1, 2, [[5], [5], [0], [0], [0]]⟩
      = 1 := by
  rw [phraseBufferCount, srcW_spb]
  exact ceilEval _ _ (by norm_num) (by norm_num)

lemma srcW_nsbc :
    nonSpeakingBufferCount ⟨4, false, 3/20, 2, 1, 1, 1⟩
      ⟨1, 1, 2, [[5], [5], [0], [0], [0]]⟩ = 1 := by
  rw [nonSpeakingBufferCount, srcW_spb]
  exact ceilEval _ _ (by norm_num) (by norm_num)

lemma listen_W_run :
    Recognizer.listen ⟨4, false, 3/20, 2, 1, 1, 1⟩ ⟨1, 1, 2, [[5], [5], [0], [0], [0]]⟩
        none 0 1
      = some (.audio [[5], [5], [0]] [[5], [5], [0], [0]] 4 2 3 false false) := by
  rw [Recognizer.listen, if_pos cfgW_entry, srcW_spb, srcW_pause_bc, srcW_phrase_bc,
    srcW_nsbc]
  norm_num [listenLoop, phaseA, phaseB, timeoutHit, trimFrames, rms_five, rms_zero]

lemma phaseA_W_run :
    phaseA false (3/20) 2 1 none 1 [[5], [5], [0], [0], [0]] [] 0 4
      = .done [[5]] 1 4 [[5], [0], [0], [0]] false := by
  norm_num [phaseA, timeoutHit, rms_five]

lemma phaseB_W_run :
    phaseB 1 1 4 [[5], [0], [0], [0]] [[5]] 0 0 1
      = ⟨[[5], [5], [0], [0]], 2, 3, 4, [[0]], false⟩ := by
  norm_num [phaseB, rms_five, rms_zero]

/-! ## Claim theorem: C5 -/

/-- Claim C5: after Phase B ends, the captured ring is emitted if and
only if the effective phrase `phrase_count - pause_count` is at least
`phrase_buffer_count`.
Part 1: whenever `listen` returns audio, the emitting cycle satisfied
the test (the recorded counters obey
`phrase_buffer_count <= phrase_count - pause_count`).
Part 2: one cycle of the retry loop, given Phase A's outcome and the
resulting Phase-B state `B`: if the test passes the trimmed ring is
emitted; otherwise the loop recurses on the remaining stream with the
same clock and threshold — and, by definition of `listenLoop`, the next
cycle starts Phase A with a fresh empty ring and Phase B with fresh
zero counters. -/
theorem listen_emission_test :
    (∀ r src tmo d fuel fr ring t pa ph eA eB,
        Recognizer.listen r src tmo d fuel = some (.audio fr ring t pa ph eA eB) →
        phraseBufferCount r src ≤ ph - pa)
    ∧ (∀ (dyn : Bool) (damping ratio spb : ℚ) (tmo : Option ℚ)
          (nsbc pause_bc phrase_bc : ℤ) (fuel : ℕ) (stream : List Buffer)
          (elapsed thr : ℚ) (framesA : List Buffer) (e1 t1 : ℚ)
          (rest : List Buffer) (eofA : Bool) (B : PhaseBOut),
        phaseA dyn damping ratio spb tmo nsbc stream [] elapsed thr
          = .done framesA e1 t1 rest eofA →
        phaseB pause_bc spb t1 rest framesA 0 0 e1 = B →
        ((phrase_bc ≤ B.phrase - B.pause →
          listenLoop dyn damping ratio spb tmo nsbc pause_bc phrase_bc (fuel + 1)
              stream elapsed thr
            = some (.audio (trimFrames nsbc B.frames B.pause) B.frames t1 B.pause
                B.phrase eofA B.eof))
        ∧ (¬ phrase_bc ≤ B.phrase - B.pause →
          listenLoop dyn damping ratio spb tmo nsbc pause_bc phrase_bc (fuel + 1)
              stream elapsed thr
            = listenLoop dyn damping ratio spb tmo nsbc pause_bc phrase_bc fuel
                B.rest B.elapsed t1))) := by
  constructor
  · intro r src tmo d fuel fr ring t pa ph eA eB hcon
    rw [Recognizer.listen] at hcon
    split at hcon
    · exact listenLoop_emission_cond _ _ _ _ _ _ _ _ fuel _ _ _ _ _ _ _ _ _ _ hcon
    · simp at hcon
  · intro dyn damping ratio spb tmo nsbc pause_bc phrase_bc fuel stream elapsed thr
      framesA e1 t1 rest eofA B hA hB
    subst hB
    constructor
    · intro hcond
      rw [listenLoop, hA]
      dsimp only
      rw [if_pos hcond]
    · intro hcond
      rw [listenLoop, hA]
      dsimp only
      rw [if_neg hcond]

/-- Witness for C5: the concrete emitting run — part 1 instantiated at
`listen_W_run` (`1 <= 3 - 2`), and part 2's positive case reproduces
the emitted result from the concrete Phase-A/Phase-B outcomes. -/
theorem listen_emission_test_witness :
    phraseBufferCount ⟨4, false, 3/20, 2, 1, 1, 1⟩ ⟨1, 1, 2, [[5], [5], [0], [0], [0]]⟩
        ≤ 3 - 2
    ∧ listenLoop false (3/20) 2 1 none 1 1 1 1 [[5], [5], [0], [0], [0]] 0 4
        = some (.audio (trimFrames 1 [[5], [5], [0], [0]] 2) [[5], [5], [0], [0]] 4 2 3
            false false) :=
  ⟨listen_emission_test.1 _ _ none 0 1 _ _ _ _ _ _ _ listen_W_run,
    (listen_emission_test.2 false (3/20) 2 1 none 1 1 1 0 [[5], [5], [0], [0], [0]] 0 4
        [[5]] 1 4 [[5], [0], [0], [0]] false _ phaseA_W_run phaseB_W_run).1
      (by norm_num)⟩

/-! ## Claim theorems: C2 and C6 -/

lemma counts_of_valid (r : Recognizer) (src : Source) (hC : entryAssert r)
    (hchunk : 0 < src.CHUNK) (hrate : 0 < src.SAMPLE_RATE) :
    0 ≤ nonSpeakingBufferCount r src ∧ 0 ≤ pauseBufferCount r src
      ∧ nonSpeakingBufferCount r src ≤ pauseBufferCount r src := by
  have hspb : 0 < secondsPerBuffer src := by
    rw [secondsPerBuffer]
    exact div_pos (by exact_mod_cast hchunk) (by exact_mod_cast hrate)
  refine ⟨?_, ?_, ?_⟩
  · exact Int.ceil_nonneg (div_nonneg hC.2 hspb.le)
  · exact Int.ceil_nonneg (div_nonneg (le_trans hC.2 hC.1) hspb.le)
  · exact Int.ceil_le_ceil ((div_le_div_iff_of_pos_right hspb).mpr hC.1)

/-- Claim C2: for a valid configuration, a source of whole
`chunk_size`-sample buffers and an emission in which neither phase saw
EOF (`eofA = eofB = false`, which is forced when every read returns a
whole buffer), the emitted AudioData holds at least
`phrase_buffer_count + non_speaking_buffer_count` buffers and at most
`pre_roll + body + non_speaking_buffer_count` buffers, where the
pre-roll cap is `non_speaking_buffer_count` and the body is the
effective phrase `phrase_count - pause_count`. -/
theorem listen_emitted_length_bounds (r : Recognizer) (src : Source) (tmo : Option ℚ)
    (d : ℚ) (fuel : ℕ) (fr ring : List Buffer) (t : ℚ) (pa ph : ℤ)
    (hC : entryAssert r) (_hP : 0 ≤ r.phrase_threshold)
    (hchunk : 0 < src.CHUNK) (hrate : 0 < src.SAMPLE_RATE)
    (_hfull : ∀ b ∈ src.stream, b.length = src.CHUNK)
    (hrun : Recognizer.listen r src tmo d fuel
      = some (.audio fr ring t pa ph false false)) :
    phraseBufferCount r src + nonSpeakingBufferCount r src ≤ (fr.length : ℤ)
    ∧ (fr.length : ℤ)
        ≤ nonSpeakingBufferCount r src + (ph - pa) + nonSpeakingBufferCount r src := by
  obtain ⟨hn0, hp0, hnp⟩ := counts_of_valid r src hC hchunk hrate
  rw [Recognizer.listen, if_pos hC] at hrun
  obtain ⟨h1, h2, h3, h4, h5, h6, h7⟩ :=
    listenLoop_audio_spec _ _ _ _ _ _ _ _ hn0 hp0 fuel _ _ _ _ _ _ _ _ _ _ hrun
  have hpa : pa = pauseBufferCount r src + 1 := h6 rfl
  have hkle : (pa - nonSpeakingBufferCount r src).toNat ≤ ring.length := by omega
  have hfrlen : fr.length
      = ring.length - (pa - nonSpeakingBufferCount r src).toNat := by
    rw [h1, trimFrames, List.length_take]
    omega
  constructor
  · rw [hfrlen]
    omega
  · rw [hfrlen]
    omega

/-- Witness for C2: the concrete emitting run `listen_W_run`, where all
buffer counts are 1 and the emitted AudioData has 3 buffers:
`1 + 1 ≤ 3 ≤ 1 + (3 - 2) + 1`. -/
theorem listen_emitted_length_bounds_witness :
    phraseBufferCount ⟨4, false, 3/20, 2, 1, 1, 1⟩ ⟨1, 1, 2, [[5], [5], [0], [0], [0]]⟩
        + nonSpeakingBufferCount ⟨4, false, 3/20, 2, 1, 1, 1⟩
            ⟨1, 1, 2, [[5], [5], [0], [0], [0]]⟩
        ≤ (([[5], [5], [0]] : List Buffer).length : ℤ)
    ∧ (([[5], [5], [0]] : List Buffer).length : ℤ)
        ≤ nonSpeakingBufferCount ⟨4, false, 3/20, 2, 1, 1, 1⟩
              ⟨1, 1, 2, [[5], [5], [0], [0], [0]]⟩
            + (3 - 2)
            + nonSpeakingBufferCount ⟨4, false, 3/20, 2, 1, 1, 1⟩
                ⟨1, 1, 2, [[5], [5], [0], [0], [0]]⟩ :=
  listen_emitted_length_bounds _ _ none 0 1 _ _ _ _ _ cfgW_entry (by norm_num)
    (by norm_num) (by norm_num) (by decide) listen_W_run

/-- Claim C6: when `listen` emits, the trimming step drops exactly
`max 0 (pause_count - non_speaking_buffer_count)` buffers from the tail
of the ring and keeps the rest in arrival order (the emitted frames are
a prefix of the ring); when `pause_count <= non_speaking_buffer_count`
nothing is removed, and when `non_speaking_buffer_count = 0` all
`pause_count` trailing buffers are removed. -/
theorem listen_trimming (r : Recognizer) (src : Source) (tmo : Option ℚ) (d : ℚ)
    (fuel : ℕ) (fr ring : List Buffer) (t : ℚ) (pa ph : ℤ) (eA eB : Bool)
    (hC : entryAssert r) (hchunk : 0 < src.CHUNK) (hrate : 0 < src.SAMPLE_RATE)
    (hrun : Recognizer.listen r src tmo d fuel = some (.audio fr ring t pa ph eA eB)) :
    fr = ring.take (ring.length - (pa - nonSpeakingBufferCount r src).toNat)
    ∧ (∃ tl, ring = fr ++ tl)
    ∧ (pa ≤ nonSpeakingBufferCount r src → fr = ring)
    ∧ (nonSpeakingBufferCount r src = 0 →
        (fr.length : ℤ) = (ring.length : ℤ) - pa)
    ∧ ((fr.length : ℤ)
        = (ring.length : ℤ) - max (pa - nonSpeakingBufferCount r src) 0) := by
  obtain ⟨hn0, hp0, hnp⟩ := counts_of_valid r src hC hchunk hrate
  rw [Recognizer.listen, if_pos hC] at hrun
  obtain ⟨h1, h2, h3, h4, h5, h6, h7⟩ :=
    listenLoop_audio_spec _ _ _ _ _ _ _ _ hn0 hp0 fuel _ _ _ _ _ _ _ _ _ _ hrun
  have hkle : (pa - nonSpeakingBufferCount r src).toNat ≤ ring.length := by omega
  have hfrlen : (fr.length : ℤ)
      = (ring.length : ℤ) - max (pa - nonSpeakingBufferCount r src) 0 := by
    rw [h1, trimFrames, List.length_take, Nat.min_eq_left (Nat.sub_le _ _),
      ← Int.toNat_eq_max]
    omega
  refine ⟨by rw [h1, trimFrames],
    ⟨ring.drop (ring.length - (pa - nonSpeakingBufferCount r src).toNat), ?_⟩,
    ?_, ?_, hfrlen⟩
  · rw [h1, trimFrames, List.take_append_drop]
  · intro hple
    rw [h1, trimFrames, show (pa - nonSpeakingBufferCount r src).toNat = 0 by omega,
      Nat.sub_zero, List.take_length]
  · intro h0
    rw [hfrlen, h0]
    omega

/-- Witness for C6: in the concrete emitting run `listen_W_run`
(`pause_count = 2`, `non_speaking_buffer_count = 1`), exactly one
trailing silent buffer is trimmed from the 4-buffer ring. -/
theorem listen_trimming_witness :
    ([[5], [5], [0]] : List Buffer)
        = ([[5], [5], [0], [0]] : List Buffer).take
            (([[5], [5], [0], [0]] : List Buffer).length
              - ((2 : ℤ) - nonSpeakingBufferCount ⟨4, false, 3/20, 2, 1, 1, 1⟩
                  ⟨1, 1, 2, [[5], [5], [0], [0], [0]]⟩).toNat)
    ∧ (∃ tl, ([[5], [5], [0], [0]] : List Buffer) = [[5], [5], [0]] ++ tl)
    ∧ ((2 : ℤ) ≤ nonSpeakingBufferCount ⟨4, false, 3/20, 2, 1, 1, 1⟩
          ⟨1, 1, 2, [[5], [5], [0], [0], [0]]⟩ →
        ([[5], [5], [0]] : List Buffer) = [[5], [5], [0], [0]])
    ∧ (nonSpeakingBufferCount ⟨4, false, 3/20, 2, 1, 1, 1⟩
          ⟨1, 1, 2, [[5], [5], [0], [0], [0]]⟩ = 0 →
        (([[5], [5], [0]] : List Buffer).length : ℤ)
          = (([[5], [5], [0], [0]] : List Buffer).length : ℤ) - 2)
    ∧ ((([[5], [5], [0]] : List Buffer).length : ℤ)
        = (([[5], [5], [0], [0]] : List Buffer).length : ℤ)
          - max ((2 : ℤ) - nonSpeakingBufferCount ⟨4, false, 3/20, 2, 1, 1, 1⟩
              ⟨1, 1, 2, [[5], [5], [0], [0], [0]]⟩) 0) :=
  listen_trimming _ _ none 0 1 _ _ _ _ _ _ _ cfgW_entry (by norm_num) (by norm_num)
    listen_W_run

/-! ## Claim theorems: C3 -/

lemma floorEval (r : ℚ) (z : ℤ) (h1 : (z : ℚ) ≤ r) (h2 : r < (z : ℚ) + 1) :
    ⌊r⌋ = z :=
  Int.floor_eq_iff.mpr ⟨by exact_mod_cast h1, by exact_mod_cast h2⟩

/-- Counterexample to claim C3 as stated.  The claim says the captured
duration rounds *up*, i.e. for a duration that is not an exact multiple
of `seconds_per_buffer` the returned AudioData covers at least
`duration` seconds when the stream is long enough.  In the code the
loop increments `elapsed_time` and breaks *before* writing the buffer
that crosses `duration` (line 134 precedes line 136), so capture rounds
*down*: with `seconds_per_buffer = 1/2` and `duration = 3/4` on a 2 s
stream, only one buffer (1/2 s < 3/4 s) is captured. -/
theorem record_rounds_down_counterexample :
    ((record ⟨1, 2, 2, [[0], [0], [0], [0]]⟩ (some (3/4)) none).frame_data.length : ℚ)
        / ((⟨1, 2, 2, [[0], [0], [0], [0]]⟩ : Source).SAMPLE_RATE : ℚ) < 3 / 4
    ∧ (3 / 4 : ℚ) ≤ (([[0], [0], [0], [0]] : List Buffer).length : ℚ)
          * secondsPerBuffer ⟨1, 2, 2, [[0], [0], [0], [0]]⟩ := by
  constructor
  · have hrun : record ⟨1, 2, 2, [[0], [0], [0], [0]]⟩ (some (3/4)) none
        = ⟨[0], 2, 2⟩ := by
      rw [record]
      rw [show secondsPerBuffer ⟨1, 2, 2, [[0], [0], [0], [0]]⟩ = 1/2 from by
        norm_num [secondsPerBuffer]]
      norm_num [recordLoop, pyTruthy]
    rw [hrun]
    norm_num
  · norm_num [secondsPerBuffer]

lemma recordLoop_take (spb d : ℚ) (hspb : 0 < spb) (hd : 0 < d)
    (stream : List Buffer) :
    ∀ elapsed frames ot, (∀ b ∈ stream, b ≠ []) →
      (⌊(d - elapsed) / spb⌋).toNat ≤ stream.length →
      recordLoop spb (some d) none stream elapsed ot false frames
        = frames ++ stream.take (⌊(d - elapsed) / spb⌋).toNat := by
  induction stream with
  | nil =>
    intro elapsed frames ot hne hlen
    simp only [List.length_nil, Nat.le_zero] at hlen
    rw [recordLoop, hlen]
    simp
  | cons b rest ih =>
    intro elapsed frames ot hne hlen
    have hbne : b.isEmpty = false := by
      rw [List.isEmpty_eq_false_iff_exists_mem]
      rcases hne b (List.mem_cons_self _ _) with h
      exact match b, h with
        | x :: _, _ => ⟨x, List.mem_cons_self _ _⟩
    have hdne : (d != 0) = true := by simp [hd.ne']
    rw [recordLoop]
    simp only [pyTruthy, Bool.false_and, Bool.and_false, Bool.or_false, Bool.not_false,
      Bool.or_true, hbne, Bool.false_eq_true, if_false, if_true, hdne, Bool.true_and,
      Option.getD_some]
    by_cases hstop : d < elapsed + spb
    · rw [if_pos (by simpa using hstop)]
      have hk0 : (⌊(d - elapsed) / spb⌋).toNat = 0 := by
        have hlt1 : (d - elapsed) / spb < 1 := (div_lt_one hspb).mpr (by linarith)
        have h2 : ⌊(d - elapsed) / spb⌋ < (1 : ℤ) := by
          apply Int.floor_lt.mpr
          push_cast
          exact hlt1
        omega
      rw [hk0]
      simp
    · rw [if_neg (by simpa using hstop)]
      have hge : spb ≤ d - elapsed := by
        have := not_lt.mp hstop
        linarith
      have h1le : 1 ≤ ⌊(d - elapsed) / spb⌋ := by
        apply Int.le_floor.mpr
        push_cast
        exact (one_le_div hspb).mpr hge
      have hsub : ⌊(d - (elapsed + spb)) / spb⌋ = ⌊(d - elapsed) / spb⌋ - 1 := by
        rw [show (d - (elapsed + spb)) / spb = (d - elapsed) / spb - 1 by
          rw [show d - (elapsed + spb) = d - elapsed - spb by ring, sub_div,
            div_self hspb.ne']]
        exact Int.floor_sub_one _
      have hlen2 : (⌊(d - elapsed) / spb⌋).toNat ≤ rest.length + 1 := by
        simpa using hlen
      rw [ih (elapsed + spb) (frames ++ [b]) ot
        (fun x hx => hne x (List.mem_cons_of_mem _ hx))
        (by rw [hsub]; omega)]
      rw [hsub]
      rw [show (⌊(d - elapsed) / spb⌋).toNat = (⌊(d - elapsed) / spb⌋ - 1).toNat + 1 by
        omega]
      rw [List.take_succ_cons, List.append_assoc, List.singleton_append]

/-- Claim C3, amended: `record` skips roughly the first `offset`
seconds and appends buffers until `duration` seconds or EOF; capture is
buffer-granular but rounds *down*, not up: with no offset and a truthy
`duration`, exactly `⌊duration / seconds_per_buffer⌋` buffers are
captured when the stream is long enough, and the captured duration is
at most `duration` (strictly less when `duration` is not an exact
multiple of `seconds_per_buffer`). -/
theorem record_duration_floor (src : Source) (d : ℚ)
    (hspb : 0 < secondsPerBuffer src) (hd : 0 < d)
    (hne : ∀ b ∈ src.stream, b ≠ [])
    (hlen : (⌊d / secondsPerBuffer src⌋).toNat ≤ src.stream.length) :
    (record src (some d) none).frame_data
      = (src.stream.take (⌊d / secondsPerBuffer src⌋).toNat).flatten
    ∧ ((⌊d / secondsPerBuffer src⌋ : ℤ) : ℚ) * secondsPerBuffer src ≤ d := by
  constructor
  · rw [record]
    dsimp only
    rw [recordLoop_take (secondsPerBuffer src) d hspb hd src.stream 0 [] 0 hne
      (by simpa using hlen)]
    simp
  · have h1 : ((⌊d / secondsPerBuffer src⌋ : ℤ) : ℚ) ≤ d / secondsPerBuffer src :=
      Int.floor_le _
    calc ((⌊d / secondsPerBuffer src⌋ : ℤ) : ℚ) * secondsPerBuffer src
        ≤ d / secondsPerBuffer src * secondsPerBuffer src :=
          mul_le_mul_of_nonneg_right h1 hspb.le
      _ = d := div_mul_cancel₀ d hspb.ne'

/-- Witness for the amended C3: the counterexample source captures
exactly `⌊(3/4) / (1/2)⌋ = 1` buffer, covering `1/2 ≤ 3/4` seconds. -/
theorem record_duration_floor_witness :
    (record ⟨1, 2, 2, [[0], [0], [0], [0]]⟩ (some (3/4)) none).frame_data
      = (([[0], [0], [0], [0]] : List Buffer).take
          (⌊(3/4 : ℚ) / secondsPerBuffer ⟨1, 2, 2, [[0], [0], [0], [0]]⟩⌋).toNat).flatten
    ∧ ((⌊(3/4 : ℚ) / secondsPerBuffer ⟨1, 2, 2, [[0], [0], [0], [0]]⟩⌋ : ℤ) : ℚ)
        * secondsPerBuffer ⟨1, 2, 2, [[0], [0], [0], [0]]⟩ ≤ 3/4 :=
  record_duration_floor _ _ (by norm_num [secondsPerBuffer]) (by norm_num)
    (by decide)
    (by
      rw [show secondsPerBuffer ⟨1, 2, 2, [[0], [0], [0], [0]]⟩ = 1/2 from by
        norm_num [secondsPerBuffer]]
      rw [show ⌊(3/4 : ℚ) / (1/2)⌋ = 1 from floorEval _ _ (by norm_num) (by norm_num)]
      norm_num)

/-! ## Claim theorem: C7 -/

/-- Claim C7: `adjust_for_ambient_noise` updates `energy_threshold`
unconditionally.
Part 1: the result does not depend on `dynamic_energy_threshold`.
Part 2: each non-final loop iteration performs exactly
`energy_threshold ← energy_threshold · damping + (energy ·
dynamic_energy_ratio) · (1 − damping)` on the buffer it read, where
`damping` stands for `dynamic_energy_adjustment_damping **
seconds_per_buffer`.
Part 3: for `0 ≤ damping ≤ 1` each such update moves the threshold
monotonically toward `energy · dynamic_energy_ratio` without
overshooting, so on a constant-energy stream the threshold converges
monotonically toward `dynamic_energy_ratio` times that energy. -/
theorem adjust_ewma_spec :
    (∀ (r : Recognizer) (src : Source) (dur d : ℚ) (fuel : ℕ) (b : Bool),
        adjust_for_ambient_noise { r with dynamic_energy_threshold := b } src dur d fuel
          = adjust_for_ambient_noise r src dur d fuel)
    ∧ (∀ (damping ratio spb dur : ℚ) (fuel : ℕ) (stream : List Buffer) (b : Buffer)
          (elapsed thr : ℚ),
        elapsed + spb ≤ dur →
        adjustLoop damping ratio spb dur (fuel + 1) (b :: stream) elapsed thr
          = adjustLoop damping ratio spb dur fuel stream (elapsed + spb)
              (ewma damping ratio (rms b) thr))
    ∧ (∀ (damping ratio : ℚ) (energy : ℕ) (thr : ℚ),
        0 ≤ damping → damping ≤ 1 →
        ((thr ≤ (energy : ℚ) * ratio →
            thr ≤ ewma damping ratio energy thr
            ∧ ewma damping ratio energy thr ≤ (energy : ℚ) * ratio)
        ∧ ((energy : ℚ) * ratio ≤ thr →
            (energy : ℚ) * ratio ≤ ewma damping ratio energy thr
            ∧ ewma damping ratio energy thr ≤ thr))) := by
  refine ⟨?_, ?_, ?_⟩
  · intro r src dur d fuel b
    rfl
  · intro damping ratio spb dur fuel stream b elapsed thr h
    simp only [adjustLoop]
    rw [if_neg (not_lt.mpr h)]
  · intro damping ratio energy thr h0 h1
    have key1 : ewma damping ratio energy thr - thr
        = ((energy : ℚ) * ratio - thr) * (1 - damping) := by rw [ewma]; ring
    have key2 : (energy : ℚ) * ratio - ewma damping ratio energy thr
        = ((energy : ℚ) * ratio - thr) * damping := by rw [ewma]; ring
    constructor
    · intro hle
      constructor
      · nlinarith
      · nlinarith
    · intro hle
      constructor
      · nlinarith
      · nlinarith

/-- Witness for C7: the per-buffer unfolding on a concrete non-final
iteration, and a concrete contraction step: with damping `1/2`, ratio
`2` and energy `100`, the threshold `600` moves toward the target
`200` without overshooting. -/
theorem adjust_ewma_spec_witness :
    adjustLoop (1/2) 2 1 3 1 [[5]] 0 600
        = adjustLoop (1/2) 2 1 3 0 [] (0 + 1) (ewma (1/2) 2 (rms [5]) 600)
    ∧ (((100 : ℕ) : ℚ) * 2 ≤ ewma (1/2) 2 100 600 ∧ ewma (1/2) 2 100 600 ≤ 600) :=
  ⟨adjust_ewma_spec.2.1 (1/2) 2 1 3 0 [] [5] 0 600 (by norm_num),
    (adjust_ewma_spec.2.2 (1/2) 2 100 600 (by norm_num) (by norm_num)).2
      (by norm_num)⟩
